import Mathlib

/-!
Shallow embedding of the agent coordination layer of this repository
(scripts/agent_comms.py, scripts/telegram_bridge.py, scripts/nsync.py)
and proofs about the frozen claims over it.

Filenames and message texts are modelled as lists of characters.  Wall-clock
instants (Python `time.time()`, file mtimes, record timestamps) are modelled
as integers counting seconds; every threshold constant of the source (60,
120) appears literally.  `int(time.time() * 1000)` becomes `now * 1000`,
since `int(·)` is the identity on whole numbers; two calls that observe the
same clock reading model two calls falling within the clock's resolution.
-/

/-- Strings from the Python source, modelled as lists of characters so that
glob-style prefix matching can be reasoned about directly. -/
abbrev Str := List Char

/-- Coerce a Lean string literal to the `Str` model. -/
def strOf (s : String) : Str := s.data

/-- Python `str.lower()` (ASCII use only in the source). -/
def pyLower (s : Str) : Str := s.map Char.toLower

/-- Boolean prefix test, the `name.startswith(pre)` / glob-prefix part of
patterns such as `f"{hostname}_*.json"`. -/
def strPrefix : Str → Str → Bool
  | [], _ => true
  | _ :: _, [] => false
  | a :: as, b :: bs => a == b && strPrefix as bs

/-- Boolean suffix test, used for the `.json` tail of glob patterns. -/
def strSuffix (suf s : Str) : Bool := strPrefix suf.reverse s.reverse

/-- `glob(f"{pre}*{suf}")` membership for a file name: the name starts with
`pre`, ends with `suf`, and the two occurrences do not overlap. -/
def globPS (pre suf name : Str) : Bool :=
  strPrefix pre name && strSuffix suf name && decide (pre.length + suf.length ≤ name.length)

/-- Decimal digit character, as produced by Python `str(int)`. -/
def digitChar (d : Nat) : Char := Char.ofNat (48 + d % 10)

/-- Little-endian decimal digits of `n`, with explicit fuel so the kernel can
evaluate it (`fuel ≥ n` suffices). -/
def natDigitsRev : Nat → Nat → List Nat
  | 0, _ => []
  | fuel + 1, n => if n = 0 then [] else n % 10 :: natDigitsRev fuel (n / 10)

/-- Decimal rendering of a natural number, as Python `str` does. -/
def natRepr (n : Nat) : Str :=
  if n = 0 then ['0'] else ((natDigitsRev n n).map digitChar).reverse

/-- Decimal rendering of an integer, as Python `str` does. -/
def intRepr (i : Int) : Str :=
  if i < 0 then '-' :: natRepr i.natAbs else natRepr i.natAbs

/-- Python `int(time.time() * 1000)`, the millisecond message id computed in
`send_message` / `handle_instruction`, for a clock reading of `now` whole
seconds. -/
def msgIdOf (now : ℤ) : ℤ := now * 1000

/-! ## Mailbox (agent_comms.send_message / listen_for_messages) -/

/-- Payload written by `send_message`:
`{id, from, to, type, content, timestamp}`.  `content` is the opaque
key/value map (`{"text": ...}` at the CLI call site).  The `from` field is
spelled `fromHost` because `from` is reserved in Lean. -/
structure MailMsg where
  id : ℤ
  fromHost : Str
  toHost : Str
  type : Str
  content : List (Str × Str)
  timestamp : ℤ
deriving DecidableEq

/-- On-disk contents of one mailbox file: a JSON document that either parses
to a message or fails to parse (partial write from a concurrent sync). -/
inductive MailData where
  | valid (msg : MailMsg)
  | invalid
deriving DecidableEq

/-- One file in the shared mailbox directory. -/
structure MailFile where
  name : Str
  data : MailData
deriving DecidableEq

/-- `open(path, "w")` semantics on a directory listing: overwrite the file of
that name when present, create it otherwise. -/
def writeFile (mb : List MailFile) (name : Str) (d : MailData) : List MailFile :=
  if mb.any (fun f => f.name == name) then
    mb.map (fun f => if f.name == name then ⟨name, d⟩ else f)
  else
    mb ++ [⟨name, d⟩]

/-- The storage key rendered by `send_message`:
`f"{recipient}_{get_hostname()}_{msg_id}.json"`. -/
def msgFileName (recipient sender : Str) (msgId : ℤ) : Str :=
  recipient ++ strOf "_" ++ sender ++ strOf "_" ++ intRepr msgId ++ strOf ".json"

/-- `send_message(recipient, msg_type, content)` run at wall-clock `now` by
host `sender`: computes the millisecond id, writes the payload file, and
returns the new mailbox plus the payload. -/
def sendMessage (sender recipient msgType : Str) (content : List (Str × Str)) (now : ℤ)
    (mb : List MailFile) : List MailFile × MailMsg :=
  let msgId := msgIdOf now
  let payload : MailMsg :=
    { id := msgId, fromHost := sender, toHost := recipient, type := msgType,
      content := content, timestamp := now }
  (writeFile mb (msgFileName recipient sender msgId) (MailData.valid payload), payload)

/-- `listen_for_messages()` run by host `hostname`: iterate the files matched
by `glob(f"{hostname}_*.json")`; a file that parses is appended to the result
and deleted; a file that fails to parse is logged and left in place.  Returns
(messages, remaining mailbox). -/
def listenForMessages (hostname : Str) : List MailFile → List MailMsg × List MailFile
  | [] => ([], [])
  | f :: rest =>
    if globPS (hostname ++ strOf "_") (strOf ".json") f.name then
      match f.data with
      | MailData.valid m =>
        (m :: (listenForMessages hostname rest).1, (listenForMessages hostname rest).2)
      | MailData.invalid =>
        ((listenForMessages hostname rest).1, f :: (listenForMessages hostname rest).2)
    else ((listenForMessages hostname rest).1, f :: (listenForMessages hostname rest).2)

/-! ## Presence Store (agent_comms.AgentPresence) -/

/-- A parsed presence record `{hostname, timestamp, status, current_task,
last_seen}`.  `timestamp` is optional because the election code reads it with
`d.get('timestamp', 0)`. -/
structure PresRec where
  timestamp : Option ℤ
  status : Str
  currentTask : Str
deriving DecidableEq

/-- One `{stem}.json` file in the comms directory; `parsed = none` models a
file whose JSON fails to parse (skipped by `get_remote_status`). -/
structure PresFile where
  stem : Str
  parsed : Option PresRec
deriving DecidableEq

/-- `AgentPresence.get_remote_status()`: all presence records except the
caller's own, each parsed independently; parse failures are skipped. -/
def getRemoteStatus (hostname : Str) (files : List PresFile) : List (Str × PresRec) :=
  (files.filter (fun f => f.stem ≠ hostname)).filterMap
    (fun f => f.parsed.map (fun d => (f.stem, d)))

/-! ## Election policy inside listen_for_telegram_messages -/

/-- The loop `for h, d in remotes.items(): if h.lower() == "quasar" and
time.time() - d.get('timestamp', 0) < 120: quasar_active = True`. -/
def quasarActive (hostname : Str) (files : List PresFile) (now : ℤ) : Bool :=
  (getRemoteStatus hostname files).any
    (fun hd => pyLower hd.1 == strOf "quasar" && decide (now - hd.2.timestamp.getD 0 < 120))

/-- The `is_primary` computation of the fallback pass: the host named quasar
is always primary; any other host is primary exactly when no visible quasar
presence record is fresh (`age < 120`). -/
def fallbackIsPrimary (hostname : Str) (files : List PresFile) (now : ℤ) : Bool :=
  if pyLower hostname == strOf "quasar" then true
  else !(quasarActive hostname files now)

/-- Decision of the fallback pass for a single `Antigravity_*` inbox item of
modification time `mtime`: claim it iff its age exceeds 60 seconds and this
host is the (effective) primary for the fallback. -/
def fallbackClaims (hostname : Str) (files : List PresFile) (now mtime : ℤ) : Bool :=
  decide (now - mtime > 60) && fallbackIsPrimary hostname files now

/-! ## Channel inbox (telegram_inbox) -/

/-- Payload of a channel-inbox file: `{text, timestamp}` as written by
`telegram_bridge.handle_instruction`. -/
structure InboxMsg where
  text : Str
  timestamp : ℤ
deriving DecidableEq

/-- One file in the telegram inbox; `data = none` models unparsable JSON
(the per-file `except: pass` skips it without deleting). -/
structure InboxFile where
  name : Str
  data : Option InboxMsg
  mtime : ℤ
deriving DecidableEq

/-- Priority pass 1 of `listen_for_telegram_messages`: files matched by
`glob(f"{agent_identity}_*.json")` are parsed, collected and deleted; a parse
failure leaves the file in place.  Returns (messages, remaining files). -/
def telegramPrio1 (identity : Str) : List InboxFile → List InboxMsg × List InboxFile
  | [] => ([], [])
  | f :: rest =>
    if globPS (identity ++ strOf "_") (strOf ".json") f.name then
      match f.data with
      | some m => (m :: (telegramPrio1 identity rest).1, (telegramPrio1 identity rest).2)
      | none => ((telegramPrio1 identity rest).1, f :: (telegramPrio1 identity rest).2)
    else ((telegramPrio1 identity rest).1, f :: (telegramPrio1 identity rest).2)

/-- Priority pass 2 (fallback) of `listen_for_telegram_messages`: files
matched by `glob("Antigravity_*.json")` are claimed iff `fallbackClaims`
holds; an unparsable claimed file is skipped by the per-item `except`. -/
def telegramPrio2 (hostname : Str) (files : List PresFile) (now : ℤ) :
    List InboxFile → List InboxMsg × List InboxFile
  | [] => ([], [])
  | f :: rest =>
    if globPS (strOf "Antigravity_") (strOf ".json") f.name then
      if fallbackClaims hostname files now f.mtime then
        match f.data with
        | some m =>
          (m :: (telegramPrio2 hostname files now rest).1,
           (telegramPrio2 hostname files now rest).2)
        | none =>
          ((telegramPrio2 hostname files now rest).1,
           f :: (telegramPrio2 hostname files now rest).2)
      else
        ((telegramPrio2 hostname files now rest).1,
         f :: (telegramPrio2 hostname files now rest).2)
    else
      ((telegramPrio2 hostname files now rest).1,
       f :: (telegramPrio2 hostname files now rest).2)

/-- `listen_for_telegram_messages()` for a host with hostname `hostname` and
`AGENT_IDENTITY` resolving to `identity`: run the priority pass; skip the
fallback pass entirely when the identity is (case-insensitively)
"antigravity"; otherwise run the fallback pass on the files that survived the
priority pass. -/
def listenTelegramMessages (hostname identity : Str) (files : List PresFile) (now : ℤ)
    (inbox : List InboxFile) : List InboxMsg × List InboxFile :=
  if pyLower identity == strOf "antigravity" then telegramPrio1 identity inbox
  else
    ((telegramPrio1 identity inbox).1 ++
       (telegramPrio2 hostname files now (telegramPrio1 identity inbox).2).1,
     (telegramPrio2 hostname files now (telegramPrio1 identity inbox).2).2)

/-! ## Channel Bridge inbound routing (telegram_bridge.handle_instruction) -/

/-- Python `str.strip()`: drop leading and trailing whitespace. -/
def pyStrip (s : Str) : Str :=
  ((s.dropWhile Char.isWhitespace).reverse.dropWhile Char.isWhitespace).reverse

/-- Python `str.split(sep, 1)` at a one-character separator: `none` when the
separator does not occur (`len(parts) == 1`), otherwise the parts before and
after its first occurrence. -/
def splitOnce (c : Char) : Str → Option (Str × Str)
  | [] => none
  | x :: xs =>
    if x == c then some ([], xs)
    else (splitOnce c xs).map (fun p => (x :: p.1, p.2))

/-- Python `"sep" in s` for a one-character separator. -/
def strContains (s : Str) (c : Char) : Bool := s.any (fun x => x == c)

/-- Worker for `pyReplace`, with explicit fuel so the kernel can evaluate it
(`fuel ≥ s.length` suffices: each step consumes at least one character). -/
def pyReplaceFuel (pat rep : Str) : Nat → Str → Str
  | 0, s => s
  | _ + 1, [] => []
  | fuel + 1, c :: rest =>
    if !pat.isEmpty && strPrefix pat (c :: rest) then
      rep ++ pyReplaceFuel pat rep fuel (List.drop pat.length (c :: rest))
    else
      c :: pyReplaceFuel pat rep fuel rest

/-- Python `str.replace(pat, rep)` for a nonempty pattern: replace
left-to-right, non-overlapping occurrences. -/
def pyReplace (pat rep s : Str) : Str := pyReplaceFuel pat rep s.length s

/-- Whether `pat` occurs as a contiguous substring of `s` (at some suffix
start position). -/
def strInfix (pat : Str) : Str → Bool
  | [] => pat.isEmpty
  | c :: rest => strPrefix pat (c :: rest) || strInfix pat rest

/-- `telegram_bridge.handle_instruction(text)` run on host `hostname` at
wall-clock `now`: resolve the target (explicit `"to <target>: ..."` prefix
override, then the `"to antigravity"`/`"to assistant"` special case on the
possibly-rewritten text), and return the inbox file
`f"{target_host}_{msg_id}.json"` with payload `{text, timestamp}`. -/
def handleInstruction (hostname : Str) (now : ℤ) (text0 : Str) : Str × InboxMsg :=
  let target0 := pyLower hostname
  let tt1 : Str × Str :=
    if strPrefix (strOf "to ") (pyLower text0) then
      match splitOnce ':' text0 with
      | some (p0, p1) => (pyLower (pyStrip (pyReplace (strOf "to ") [] p0)), pyStrip p1)
      | none => (target0, text0)
    else (target0, text0)
  let msgId := msgIdOf now
  let special := strPrefix (strOf "to antigravity") (pyLower tt1.2) ||
                 strPrefix (strOf "to assistant") (pyLower tt1.2)
  let target2 := if special then strOf "Antigravity" else tt1.1
  let text2 :=
    if special && strContains tt1.2 ':' then
      match splitOnce ':' tt1.2 with
      | some (_, p1) => pyStrip p1
      | none => tt1.2
    else tt1.2
  (target2 ++ strOf "_" ++ intRepr msgId ++ strOf ".json", ⟨text2, now⟩)

/-! ## Channel Bridge inbound poll (telegram_bridge.poll_telegram) -/

/-- One update returned by the external endpoint.  `fromId` is
`update.get("message", {}).get("from", {}).get("id")` (`none` when absent),
`text` is `msg.get("text", "")`, and `procTime` is the wall clock at the
moment the update is handled. -/
structure TgUpdate where
  updateId : ℤ
  fromId : Option ℤ
  text : Str
  procTime : ℤ
deriving DecidableEq

/-- The persisted bridge configuration fields used by the poll. -/
structure TgConfig where
  chatId : ℤ
  lastUpdateId : ℤ
deriving DecidableEq

/-- The sender check `str(from_id) == str(chat_id)`: an absent sender id
(`None`) never matches a numeric chat id. -/
def tgAuthorized (cfg : TgConfig) (u : TgUpdate) : Bool :=
  match u.fromId with
  | some n => n == cfg.chatId
  | none => false

/-- One iteration of the update loop in `poll_telegram`: always advance the
cursor to this update's id; route the text into the inbox only when the
sender check passes. -/
def pollTelegramStep (hostname : Str) (cfg : TgConfig)
    (acc : List (Str × InboxMsg) × ℤ) (u : TgUpdate) : List (Str × InboxMsg) × ℤ :=
  if tgAuthorized cfg u then
    (acc.1 ++ [handleInstruction hostname u.procTime u.text], u.updateId)
  else (acc.1, u.updateId)

/-- The successful-response path of `poll_telegram`: process all updates in
order and return the inbox files written plus the `last_update_id` persisted
back into the configuration. -/
def pollTelegram (hostname : Str) (cfg : TgConfig) (updates : List TgUpdate) :
    List (Str × InboxMsg) × ℤ :=
  updates.foldl (pollTelegramStep hostname cfg) ([], cfg.lastUpdateId)

/-! ## Replication sync cycle (nsync.NSyncHandler.sync) -/

/-- Outcome of one external call inside `sync()`: `subprocess.run(...)`
without `check=True` completes and reports an exit code that the source never
inspects, or raises an OS-level exception. -/
inductive StepOutcome where
  | completed (exitCode : ℤ)
  | raised
deriving DecidableEq

/-- Environment of one `sync()` cycle: whether `ensure_rules_links` /
`os.chdir` raise, and the outcome of each git subprocess. -/
structure SyncEnv where
  ensureLinksRaises : Bool
  chdirRaises : Bool
  addOutcome : StepOutcome
  commitOutcome : StepOutcome
  pullOutcome : StepOutcome
  pushOutcome : StepOutcome
deriving DecidableEq

/-- The fixed commit message of the sync cycle. -/
def nsyncCommitMessage : Str := strOf "nsync: auto-sync"

/-- The observable steps of a `sync()` cycle, in source order. -/
inductive SyncStep where
  | ensureLinks
  | chdirRepo
  | gitAdd
  | gitCommit (message : Str)
  | gitPull
  | gitPush
deriving DecidableEq

/-- How a `sync()` invocation ends: normally (prints `Sync complete`), by
catching an exception inside the `try` (prints `Sync failed`), or by an
exception escaping `sync()` (possible only from `ensure_rules_links`, which
runs before the `try`). -/
inductive SyncResult where
  | completeOk
  | caughtExn
  | escapedExn
deriving DecidableEq

/-- The full ordered step list of a cycle in which nothing raises. -/
def syncStepsAll : List SyncStep :=
  [SyncStep.ensureLinks, SyncStep.chdirRepo, SyncStep.gitAdd,
   SyncStep.gitCommit nsyncCommitMessage, SyncStep.gitPull, SyncStep.gitPush]

/-- `NSyncHandler.sync()`: run `ensure_rules_links` (outside the `try`; an
exception there escapes), then inside the `try` run `os.chdir`, `git add`,
`git commit`, `git pull --rebase`, `git push`.  A subprocess that *completes*
never stops the cycle — its exit code is not checked — while a raised
exception skips the remaining steps and is caught (logged).  Returns the
executed steps and how the cycle ended. -/
def syncRun (env : SyncEnv) : List SyncStep × SyncResult :=
  if env.ensureLinksRaises then ([SyncStep.ensureLinks], SyncResult.escapedExn)
  else if env.chdirRaises then
    ([SyncStep.ensureLinks, SyncStep.chdirRepo], SyncResult.caughtExn)
  else match env.addOutcome with
  | StepOutcome.raised =>
    ([SyncStep.ensureLinks, SyncStep.chdirRepo, SyncStep.gitAdd], SyncResult.caughtExn)
  | StepOutcome.completed _ =>
    match env.commitOutcome with
    | StepOutcome.raised =>
      ([SyncStep.ensureLinks, SyncStep.chdirRepo, SyncStep.gitAdd,
        SyncStep.gitCommit nsyncCommitMessage], SyncResult.caughtExn)
    | StepOutcome.completed _ =>
      match env.pullOutcome with
      | StepOutcome.raised =>
        ([SyncStep.ensureLinks, SyncStep.chdirRepo, SyncStep.gitAdd,
          SyncStep.gitCommit nsyncCommitMessage, SyncStep.gitPull], SyncResult.caughtExn)
      | StepOutcome.completed _ =>
        match env.pushOutcome with
        | StepOutcome.raised => (syncStepsAll, SyncResult.caughtExn)
        | StepOutcome.completed _ => (syncStepsAll, SyncResult.completeOk)

/-- No call of the cycle raises an exception (exit codes are unconstrained). -/
def SyncEnv.noRaise (env : SyncEnv) : Prop :=
  env.ensureLinksRaises = false ∧ env.chdirRaises = false ∧
  env.addOutcome ≠ StepOutcome.raised ∧ env.commitOutcome ≠ StepOutcome.raised ∧
  env.pullOutcome ≠ StepOutcome.raised ∧ env.pushOutcome ≠ StepOutcome.raised

instance (env : SyncEnv) : Decidable env.noRaise := by
  unfold SyncEnv.noRaise
  infer_instance

/-! ## Agent loop message handling (agent_comms.autonomous_loop) -/

/-- The JSON value bound to a message's `content` key: a JSON object whose
`text` key may be absent (read with `.get('text', '')`), or a non-object
value (on which `.get` raises `AttributeError`). -/
inductive ContentVal where
  | dict (textVal : Option Str)
  | nondict
deriving DecidableEq

/-- A parsed mailbox JSON document as the loop body sees it: each of the keys
the body subscripts may be absent. -/
structure MailJson where
  fromField : Option Str
  typeField : Option Str
  contentField : Option ContentVal
deriving DecidableEq

/-- A parsed telegram-inbox JSON document: the `text` key may be absent. -/
structure TeleJson where
  textField : Option Str
deriving DecidableEq

/-- Python exceptions the loop body can raise on a malformed message. -/
inductive PyExc where
  | keyError
  | attributeError
deriving DecidableEq

/-- Observable side effects of one loop iteration. -/
inductive LoopEffect where
  | sentResult (recipient text : Str)
  | notifiedTelegram (text : Str)
deriving DecidableEq

/-- `handle_telegram_instruction(text)`: total on string input.  `exec`
abstracts the external execution collaborators (the antigravity automation
module and the `subprocess` invocations), every call to which is wrapped in
`try/except Exception` returning a string in the source. -/
def handleTelegramInstruction (agentIdentity : Str) (exec : Str → Str) (text : Str) : Str :=
  if pyLower agentIdentity == strOf "antigravity" then exec text
  else if (text.filter (fun c => !c.isWhitespace)).isEmpty then strOf "Empty command"
  else if pyLower text == strOf "status" then exec text
  else if strPrefix (strOf "run ") (pyLower text) then exec text
  else strOf "Received: " ++ text ++ strOf ". (Smart execution for this command pending development)"

/-- The mailbox half of one `autonomous_loop` iteration: for each message the
body subscripts `m['from']` and `m['type']` (KeyError when absent); for a
`task`/`instruction` message it subscripts `m['content']` (KeyError when
absent), calls `.get('text', '')` on it (AttributeError on a non-object),
executes, and sends a `result` reply to the sender.  The first exception
propagates out of the `while True` body. -/
def processMailMessages (agentIdentity : Str) (exec : Str → Str) :
    List MailJson → Except PyExc (List LoopEffect)
  | [] => Except.ok []
  | m :: rest =>
    match m.fromField with
    | none => Except.error PyExc.keyError
    | some sender =>
      match m.typeField with
      | none => Except.error PyExc.keyError
      | some ty =>
        if ty == strOf "task" || ty == strOf "instruction" then
          match m.contentField with
          | none => Except.error PyExc.keyError
          | some ContentVal.nondict => Except.error PyExc.attributeError
          | some (ContentVal.dict textVal) =>
            let result := handleTelegramInstruction agentIdentity exec (textVal.getD [])
            (processMailMessages agentIdentity exec rest).map
              (fun es => LoopEffect.sentResult sender result :: es)
        else processMailMessages agentIdentity exec rest

/-- The telegram half of one iteration: each item's `tm['text']` is
subscripted (KeyError when absent), executed, and a notification is queued. -/
def processTeleMessages (agentIdentity : Str) (exec : Str → Str) :
    List TeleJson → Except PyExc (List LoopEffect)
  | [] => Except.ok []
  | tm :: rest =>
    match tm.textField with
    | none => Except.error PyExc.keyError
    | some t =>
      let result := handleTelegramInstruction agentIdentity exec t
      (processTeleMessages agentIdentity exec rest).map
        (fun es => LoopEffect.notifiedTelegram
          (strOf "Result for " ++ t ++ strOf ":" ++ result) :: es)

/-- One full message-handling pass of the `while True` body of
`autonomous_loop`: mailbox messages first, then telegram-inbox items; an
uncaught exception anywhere aborts the iteration (and, in the source, escapes
the loop, whose only handler is `except KeyboardInterrupt`). -/
def loopIteration (agentIdentity : Str) (exec : Str → Str)
    (msgs : List MailJson) (tmsgs : List TeleJson) : Except PyExc (List LoopEffect) :=
  match processMailMessages agentIdentity exec msgs with
  | Except.error e => Except.error e
  | Except.ok es1 =>
    match processTeleMessages agentIdentity exec tmsgs with
    | Except.error e => Except.error e
    | Except.ok es2 => Except.ok (es1 ++ es2)

/-- Whether a message's `content` value is a JSON object (so that
`.get('text', '')` succeeds on it). -/
def contentIsDict : Option ContentVal → Bool
  | some (ContentVal.dict _) => true
  | _ => false

/-- A mailbox message on which the loop body cannot raise: `from` and `type`
are present, and a `task`/`instruction` message carries an object content. -/
def MailJson.wellFormed (m : MailJson) : Prop :=
  m.fromField.isSome = true ∧ m.typeField.isSome = true ∧
  ((m.typeField = some (strOf "task") ∨ m.typeField = some (strOf "instruction")) →
    contentIsDict m.contentField = true)

instance (m : MailJson) : Decidable m.wellFormed := by
  unfold MailJson.wellFormed
  infer_instance

/-! ## CLI status and ping (agent_comms.show_status / main) -/

/-- Observable side effects of the presence/CLI layer. -/
inductive CommsEffect where
  | wrotePresence (stem : Str) (record : PresRec)
  | syncTriggered
deriving DecidableEq

/-- Writing `f"{stem}.json"` into the comms directory: overwrite in place if
present, create otherwise. -/
def writePresFile (files : List PresFile) (stem : Str) (r : PresRec) : List PresFile :=
  if files.any (fun f => f.stem == stem) then
    files.map (fun f => if f.stem == stem then ⟨stem, some r⟩ else f)
  else files ++ [⟨stem, some r⟩]

/-- `AgentPresence.update(status, task)` at wall-clock `now`: overwrite this
host's record and trigger a (best-effort) replication cycle. -/
def agentPresenceUpdate (hostname status task : Str) (now : ℤ) (files : List PresFile) :
    List PresFile × List CommsEffect × PresRec :=
  let r : PresRec := ⟨some now, status, task⟩
  (writePresFile files hostname r,
   [CommsEffect.wrotePresence hostname r, CommsEffect.syncTriggered], r)

/-- `show_status()`: when this host's presence file exists it is only read;
when it is missing, `AgentPresence.update()` is called with its default
arguments (`status="active"`, `task="monitoring"`).  Returns the resulting
store and the effects performed. -/
def showStatus (hostname : Str) (now : ℤ) (files : List PresFile) :
    List PresFile × List CommsEffect :=
  if files.any (fun f => f.stem == hostname) then (files, [])
  else
    let u := agentPresenceUpdate hostname (strOf "active") (strOf "monitoring") now files
    (u.1, u.2.1)

/-- Python dict indexing of the `remote_status` mapping built by iterating
files in order: a later file with the same stem overwrites an earlier one, so
the lookup returns the last matching entry. -/
def dictLookup (l : List (Str × PresRec)) (k : Str) : Option PresRec :=
  match l with
  | [] => none
  | p :: rest =>
    match dictLookup rest k with
    | some d => some d
    | none => if p.1 == k then some p.2 else none

/-- Exit code of `mcp comms ping <target>`: 0 when the target has a visible
remote presence record younger than 60 seconds; 1 otherwise.  A record whose
JSON lacks a `timestamp` key raises KeyError, which escapes `main` and makes
the interpreter exit with status 1. -/
def pingExit (hostname target : Str) (files : List PresFile) (now : ℤ) : ℤ :=
  match dictLookup (getRemoteStatus hostname files) target with
  | some d =>
    match d.timestamp with
    | some ts => if now - ts < 60 then 0 else 1
    | none => 1
  | none => 1

/-- The whole `ping` branch of `main`: it reads the presence directory and
performs no write and no replication trigger. -/
def pingRun (hostname target : Str) (files : List PresFile) (now : ℤ) :
    ℤ × List PresFile × List CommsEffect :=
  (pingExit hostname target files now, files, [])

/-- Whether a mailbox file's JSON parses. -/
def mailParses : MailData → Bool
  | MailData.valid _ => true
  | MailData.invalid => false

/-- The parsed message of a mailbox file, when it parses. -/
def mailMsgOf : MailData → Option MailMsg
  | MailData.valid m => some m
  | MailData.invalid => none

/-- Value of a little-endian decimal digit list (left inverse of
`natDigitsRev`). -/
def unDigits : List Nat → Nat
  | [] => 0
  | d :: ds => d + 10 * unDigits ds

/-! # Helper lemmas about the string model -/

theorem strPrefix_append (p t : Str) : strPrefix p (p ++ t) = true := by
  induction p with
  | nil => rfl
  | cons c p ih => simp [strPrefix, ih]

theorem strPrefix_iff (p : Str) : ∀ s, strPrefix p s = true ↔ ∃ t, s = p ++ t := by
  induction p with
  | nil => intro s; simp [strPrefix]
  | cons c p ih =>
    intro s
    cases s with
    | nil => simp [strPrefix]
    | cons b bs =>
      simp only [strPrefix, Bool.and_eq_true, beq_iff_eq, ih, List.cons_append,
        List.cons_eq_cons]
      constructor
      · rintro ⟨rfl, t, rfl⟩; exact ⟨t, rfl, rfl⟩
      · rintro ⟨t, rfl, rfl⟩; exact ⟨rfl, t, rfl⟩

theorem strSuffix_append (s t : Str) : strSuffix t (s ++ t) = true := by
  unfold strSuffix
  rw [List.reverse_append]
  exact strPrefix_append _ _

theorem globPS_sandwich (pre mid suf : Str) : globPS pre suf (pre ++ (mid ++ suf)) = true := by
  simp only [globPS, Bool.and_eq_true, decide_eq_true_eq]
  refine ⟨⟨strPrefix_append _ _, ?_⟩, ?_⟩
  · rw [← List.append_assoc]
    exact strSuffix_append _ _
  · simp [List.length_append]

theorem sepSplit_unique (sep : Char) :
    ∀ u1 u2 v1 v2 : Str, sep ∉ u1 → sep ∉ u2 →
      u1 ++ sep :: v1 = u2 ++ sep :: v2 → u1 = u2 ∧ v1 = v2 := by
  intro u1
  induction u1 with
  | nil =>
    intro u2 v1 v2 h1 h2 heq
    cases u2 with
    | nil => simpa using heq
    | cons c u2 =>
      exfalso
      simp only [List.nil_append, List.cons_append, List.cons_eq_cons] at heq
      exact h2 (heq.1 ▸ List.mem_cons_self c u2)
  | cons a u1 ih =>
    intro u2 v1 v2 h1 h2 heq
    cases u2 with
    | nil =>
      exfalso
      simp only [List.cons_append, List.nil_append, List.cons_eq_cons] at heq
      exact h1 (heq.1 ▸ List.mem_cons_self a u1)
    | cons b u2 =>
      simp only [List.cons_append, List.cons_eq_cons] at heq
      obtain ⟨rfl, heq⟩ := heq
      have h1' : sep ∉ u1 := fun h => h1 (List.mem_cons_of_mem _ h)
      have h2' : sep ∉ u2 := fun h => h2 (List.mem_cons_of_mem _ h)
      obtain ⟨rfl, rfl⟩ := ih u2 v1 v2 h1' h2' heq
      exact ⟨rfl, rfl⟩

/-! # Helper lemmas about decimal rendering -/

theorem unDigits_natDigitsRev : ∀ fuel n, n ≤ fuel → unDigits (natDigitsRev fuel n) = n := by
  intro fuel
  induction fuel with
  | zero =>
    intro n h
    have : n = 0 := by omega
    subst this
    simp [natDigitsRev, unDigits]
  | succ fuel ih =>
    intro n h
    by_cases h0 : n = 0
    · subst h0; simp [natDigitsRev, unDigits]
    · simp only [natDigitsRev, h0, if_false, unDigits]
      have hdiv : n / 10 ≤ fuel := by
        have := Nat.div_lt_self (Nat.pos_of_ne_zero h0) (by norm_num : 1 < 10)
        omega
      rw [ih _ hdiv]
      omega

theorem natDigitsRev_lt : ∀ fuel n d, d ∈ natDigitsRev fuel n → d < 10 := by
  intro fuel
  induction fuel with
  | zero => intro n d h; simp [natDigitsRev] at h
  | succ fuel ih =>
    intro n d h
    by_cases h0 : n = 0
    · subst h0; simp [natDigitsRev] at h
    · simp only [natDigitsRev, h0, if_false, List.mem_cons] at h
      rcases h with h | h
      · subst h; exact Nat.mod_lt _ (by norm_num)
      · exact ih _ _ h

theorem digitChar_lt_inj : ∀ d1, d1 < 10 → ∀ d2, d2 < 10 →
    digitChar d1 = digitChar d2 → d1 = d2 := by decide

theorem digitChar_isDigit (d : Nat) : (digitChar d).isDigit = true := by
  have h : digitChar d = digitChar (d % 10) := by
    unfold digitChar
    congr 1
    omega
  rw [h]
  have hlt : d % 10 < 10 := Nat.mod_lt _ (by norm_num)
  revert hlt
  generalize d % 10 = k
  revert k
  decide

theorem mapDigitChar_inj : ∀ l1 l2 : List Nat, (∀ d ∈ l1, d < 10) → (∀ d ∈ l2, d < 10) →
    l1.map digitChar = l2.map digitChar → l1 = l2 := by
  intro l1
  induction l1 with
  | nil => intro l2 _ _ h; cases l2 <;> simp_all
  | cons a l1 ih =>
    intro l2 h1 h2 h
    cases l2 with
    | nil => simp at h
    | cons b l2 =>
      simp only [List.map_cons, List.cons_eq_cons] at h
      have ha : a < 10 := h1 a (List.mem_cons_self _ _)
      have hb : b < 10 := h2 b (List.mem_cons_self _ _)
      obtain rfl : a = b := digitChar_lt_inj a ha b hb h.1
      rw [ih l2 (fun d hd => h1 d (List.mem_cons_of_mem _ hd))
        (fun d hd => h2 d (List.mem_cons_of_mem _ hd)) h.2]

theorem natRepr_inj : ∀ m n : Nat, natRepr m = natRepr n → m = n := by
  have key : ∀ n : Nat, n ≠ 0 → ((natDigitsRev n n).map digitChar).reverse = ['0'] → False := by
    intro n hn h
    have hmap : (natDigitsRev n n).map digitChar = ['0'] := by
      have := congrArg List.reverse h
      simpa using this
    rcases hl : natDigitsRev n n with _ | ⟨d, t⟩
    · rw [hl] at hmap; simp at hmap
    · rw [hl] at hmap
      simp only [List.map_cons, List.cons_eq_cons] at hmap
      obtain ⟨hd0, ht⟩ := hmap
      have htnil : t = [] := by
        cases t with
        | nil => rfl
        | cons _ _ => simp at ht
      subst htnil
      have hdlt : d < 10 := natDigitsRev_lt n n d (by rw [hl]; exact List.mem_cons_self _ _)
      have hd : d = 0 := digitChar_lt_inj d hdlt 0 (by norm_num) (by rw [hd0]; rfl)
      subst hd
      have := unDigits_natDigitsRev n n le_rfl
      rw [hl] at this
      simp [unDigits] at this
      exact hn this.symm
  intro m n h
  unfold natRepr at h
  by_cases hm : m = 0 <;> by_cases hn : n = 0
  · omega
  · exfalso
    rw [if_pos hm, if_neg hn] at h
    exact key n hn h.symm
  · exfalso
    rw [if_neg hm, if_pos hn] at h
    exact key m hm h
  · rw [if_neg hm, if_neg hn] at h
    have hmap : (natDigitsRev m m).map digitChar = (natDigitsRev n n).map digitChar :=
      List.reverse_injective h
    have hlists : natDigitsRev m m = natDigitsRev n n :=
      mapDigitChar_inj _ _ (fun d hd => natDigitsRev_lt _ _ _ hd)
        (fun d hd => natDigitsRev_lt _ _ _ hd) hmap
    have h1 := unDigits_natDigitsRev m m le_rfl
    have h2 := unDigits_natDigitsRev n n le_rfl
    rw [hlists] at h1
    omega

theorem natRepr_isDigit (n : Nat) : ∀ c ∈ natRepr n, c.isDigit = true := by
  intro c hc
  unfold natRepr at hc
  by_cases h0 : n = 0
  · rw [if_pos h0] at hc
    simp at hc
    subst hc
    decide
  · rw [if_neg h0] at hc
    simp only [List.mem_reverse, List.mem_map] at hc
    obtain ⟨d, _, rfl⟩ := hc
    exact digitChar_isDigit d

theorem intRepr_nonneg_eq (i : ℤ) (h : 0 ≤ i) : intRepr i = natRepr i.natAbs := by
  unfold intRepr
  rw [if_neg (not_lt.mpr h)]

theorem intRepr_inj_nonneg (i j : ℤ) (hi : 0 ≤ i) (hj : 0 ≤ j)
    (h : intRepr i = intRepr j) : i = j := by
  rw [intRepr_nonneg_eq i hi, intRepr_nonneg_eq j hj] at h
  have := natRepr_inj _ _ h
  omega

theorem intRepr_isDigit_nonneg (i : ℤ) (h : 0 ≤ i) : ∀ c ∈ intRepr i, c.isDigit = true := by
  rw [intRepr_nonneg_eq i h]
  exact natRepr_isDigit _

theorem underscore_not_mem_intRepr (i : ℤ) (h : 0 ≤ i) : '_' ∉ intRepr i := by
  intro hmem
  have := intRepr_isDigit_nonneg i h '_' hmem
  simp [Char.isDigit] at this

theorem last_sep_unique (sep : Char) (a1 a2 v1 v2 : Str) (h1 : sep ∉ v1) (h2 : sep ∉ v2)
    (heq : a1 ++ sep :: v1 = a2 ++ sep :: v2) : v1 = v2 ∧ a1 = a2 := by
  have hrev := congrArg List.reverse heq
  simp only [List.reverse_append, List.reverse_cons, List.append_assoc,
    List.singleton_append] at hrev
  have h1' : sep ∉ v1.reverse := fun h => h1 (List.mem_reverse.mp h)
  have h2' : sep ∉ v2.reverse := fun h => h2 (List.mem_reverse.mp h)
  obtain ⟨hv, ha⟩ := sepSplit_unique sep _ _ _ _ h1' h2' hrev
  constructor
  · have := congrArg List.reverse hv
    simpa using this
  · have := congrArg List.reverse ha
    simpa using this

theorem msgFileName_shape (r s : Str) (i : ℤ) :
    msgFileName r s i = (r ++ ['_'] ++ s) ++ '_' :: (intRepr i ++ strOf ".json") := by
  show r ++ "_".data ++ s ++ "_".data ++ intRepr i ++ ".json".data =
    (r ++ ['_'] ++ s) ++ '_' :: (intRepr i ++ ".json".data)
  simp [List.append_assoc]

theorem msgFileName_id_inj (r1 s1 r2 s2 : Str) (i1 i2 : ℤ) (hi1 : 0 ≤ i1) (hi2 : 0 ≤ i2)
    (h : msgFileName r1 s1 i1 = msgFileName r2 s2 i2) : i1 = i2 := by
  rw [msgFileName_shape, msgFileName_shape] at h
  have hv1 : '_' ∉ intRepr i1 ++ strOf ".json" := by
    intro hm
    rcases List.mem_append.mp hm with hm | hm
    · exact underscore_not_mem_intRepr i1 hi1 hm
    · revert hm; decide
  have hv2 : '_' ∉ intRepr i2 ++ strOf ".json" := by
    intro hm
    rcases List.mem_append.mp hm with hm | hm
    · exact underscore_not_mem_intRepr i2 hi2 hm
    · revert hm; decide
  have hv := (last_sep_unique '_' _ _ _ _ hv1 hv2 h).1
  have hrepr : intRepr i1 = intRepr i2 := List.append_cancel_right hv
  exact intRepr_inj_nonneg i1 i2 hi1 hi2 hrepr

/-- **C2**: mailbox round-trip.  After `send(B, type, {text: x})` by host `A`
on an empty mailbox, the first `receive()` as host `B` returns exactly the
one sent message, whose content is `{text: x}`, and the second `receive()` as
`B` returns nothing (the file was deleted by the first). -/
theorem c2_mailbox_roundtrip (A B msgType x : Str) (now : ℤ) :
    (listenForMessages B (sendMessage A B msgType [(strOf "text", x)] now []).1).1 =
      [(sendMessage A B msgType [(strOf "text", x)] now []).2] ∧
    (sendMessage A B msgType [(strOf "text", x)] now []).2.content = [(strOf "text", x)] ∧
    listenForMessages B
      (listenForMessages B (sendMessage A B msgType [(strOf "text", x)] now []).1).2 =
      ([], []) := by
  have hglob : globPS (B ++ strOf "_") (strOf ".json") (msgFileName B A (msgIdOf now)) = true := by
    have hshape : msgFileName B A (msgIdOf now) =
        (B ++ strOf "_") ++ ((A ++ strOf "_" ++ intRepr (msgIdOf now)) ++ strOf ".json") := by
      simp [msgFileName, List.append_assoc]
    rw [hshape]
    exact globPS_sandwich _ _ _
  simp [sendMessage, writeFile, listenForMessages, hglob]

/-- **C3 counterexample**: two distinct send operations (their payloads
differ) whose clock readings coincide produce the same storage key, and after
the second send the mailbox holds only the second payload — the first,
unreceived message was overwritten. -/
theorem c3_counterexample :
    (sendMessage (strOf "A") (strOf "B") (strOf "task") [(strOf "text", strOf "one")] 1000 []).2 ≠
      (sendMessage (strOf "A") (strOf "B") (strOf "task") [(strOf "text", strOf "two")] 1000 []).2 ∧
    (sendMessage (strOf "A") (strOf "B") (strOf "task") [(strOf "text", strOf "two")] 1000
        (sendMessage (strOf "A") (strOf "B") (strOf "task")
          [(strOf "text", strOf "one")] 1000 []).1).1 =
      [⟨msgFileName (strOf "B") (strOf "A") (msgIdOf 1000),
        MailData.valid (sendMessage (strOf "A") (strOf "B") (strOf "task")
          [(strOf "text", strOf "two")] 1000 []).2⟩] := by decide

/-- **C3 (amended)**: storage keys are distinct whenever the millisecond ids
are distinct — for any senders and recipients, two sends whose clock readings
yield different ids can never share a mailbox filename.  (Uniqueness fails
only for sends whose clock readings fall in the same millisecond.) -/
theorem c3_amended_key_unique (r1 s1 r2 s2 : Str) (t1 t2 : ℤ) (h1 : 0 ≤ t1) (h2 : 0 ≤ t2)
    (hne : msgIdOf t1 ≠ msgIdOf t2) :
    msgFileName r1 s1 (msgIdOf t1) ≠ msgFileName r2 s2 (msgIdOf t2) := by
  intro h
  exact hne (msgFileName_id_inj r1 s1 r2 s2 _ _ (by unfold msgIdOf; omega)
    (by unfold msgIdOf; omega) h)

theorem c3_amended_key_unique_witness :
    msgFileName (strOf "B") (strOf "A") (msgIdOf 1000) ≠
      msgFileName (strOf "B") (strOf "A") (msgIdOf 1001) :=
  c3_amended_key_unique (strOf "B") (strOf "A") (strOf "B") (strOf "A") 1000 1001
    (by decide) (by decide) (by decide)

/-- **C7**: `receive()` returns exactly the parse-successful files addressed
to the caller and deletes exactly those; a file that fails to parse, or is
addressed elsewhere, is left in place and not returned. -/
theorem c7_receive_deletes_parsed_keeps_unparsed (hostname : Str) (mb : List MailFile) :
    (listenForMessages hostname mb).1 =
      (mb.filter (fun f => globPS (hostname ++ strOf "_") (strOf ".json") f.name &&
        mailParses f.data)).filterMap (fun f => mailMsgOf f.data) ∧
    (listenForMessages hostname mb).2 =
      mb.filter (fun f => !(globPS (hostname ++ strOf "_") (strOf ".json") f.name &&
        mailParses f.data)) := by
  induction mb with
  | nil => simp [listenForMessages]
  | cons f rest ih =>
    cases hg : globPS (hostname ++ strOf "_") (strOf ".json") f.name <;>
      rcases hf : f.data with m | _ <;>
        simp [listenForMessages, hg, hf, mailParses, mailMsgOf, List.filter_cons,
          List.filterMap_cons, ih.1, ih.2]

/-- **C4 counterexample**: a cycle in which the commit step fails (exit code
1) still executes the pull and push steps and reports normal completion —
a failing step does not abort the remaining steps. -/
theorem c4_counterexample :
    (SyncEnv.mk false false (StepOutcome.completed 0) (StepOutcome.completed 1)
        (StepOutcome.completed 0) (StepOutcome.completed 0)).commitOutcome ≠
      StepOutcome.completed 0 ∧
    syncRun (SyncEnv.mk false false (StepOutcome.completed 0) (StepOutcome.completed 1)
        (StepOutcome.completed 0) (StepOutcome.completed 0)) =
      (syncStepsAll, SyncResult.completeOk) ∧
    SyncStep.gitPull ∈ syncStepsAll ∧ SyncStep.gitPush ∈ syncStepsAll := by decide

/-- **C4 (amended)**: the executed steps always form a prefix of the fixed
order (link repair, chdir, add, commit with the fixed message, pull --rebase,
push); when no call raises an exception the whole cycle runs regardless of
the git exit codes; only a raised exception (here: in the commit call) skips
the remaining steps. -/
theorem c4_amended_step_order (env : SyncEnv) :
    (syncRun env).1 <+: syncStepsAll ∧
    (env.noRaise → syncRun env = (syncStepsAll, SyncResult.completeOk)) ∧
    (env.commitOutcome = StepOutcome.raised →
      SyncStep.gitPull ∉ (syncRun env).1 ∧ SyncStep.gitPush ∉ (syncRun env).1) := by
  rcases env with ⟨el, cd, ao, co, pl, ps⟩
  cases el <;> cases cd <;> cases ao <;> cases co <;> cases pl <;> cases ps <;>
    simp [syncRun, syncStepsAll, SyncEnv.noRaise, List.cons_prefix_cons, List.nil_prefix]

theorem c4_amended_step_order_witness :
    syncRun (SyncEnv.mk false false (StepOutcome.completed 0) (StepOutcome.completed 7)
        (StepOutcome.completed 0) (StepOutcome.completed 0)) =
      (syncStepsAll, SyncResult.completeOk) ∧
    SyncStep.gitPull ∉ (syncRun (SyncEnv.mk false false (StepOutcome.completed 0)
        StepOutcome.raised (StepOutcome.completed 0) (StepOutcome.completed 0))).1 :=
  ⟨(c4_amended_step_order _).2.1 (by decide),
   ((c4_amended_step_order _).2.2 rfl).1⟩

/-- Well-formed mailbox messages never make the loop body raise. -/
theorem processMail_wellFormed_ok (ident : Str) (exec : Str → Str) :
    ∀ msgs : List MailJson, (∀ m ∈ msgs, m.wellFormed) →
      ∃ es, processMailMessages ident exec msgs = Except.ok es := by
  intro msgs
  induction msgs with
  | nil => intro _; exact ⟨[], rfl⟩
  | cons m rest ih =>
    intro h
    obtain ⟨h1, h2, h3⟩ := h m (List.mem_cons_self _ _)
    obtain ⟨sender, hs⟩ := Option.isSome_iff_exists.mp h1
    obtain ⟨ty, hty⟩ := Option.isSome_iff_exists.mp h2
    obtain ⟨es, hes⟩ := ih (fun m' hm' => h m' (List.mem_cons_of_mem _ hm'))
    by_cases htask : (ty == strOf "task" || ty == strOf "instruction") = true
    · have hd : m.typeField = some (strOf "task") ∨ m.typeField = some (strOf "instruction") := by
        rw [hty]
        have := htask
        simp only [Bool.or_eq_true, beq_iff_eq] at this
        rcases this with h' | h'
        · exact Or.inl (by rw [h'])
        · exact Or.inr (by rw [h'])
      have hcd : contentIsDict m.contentField = true := h3 hd
      rcases hcf : m.contentField with _ | cv
      · rw [hcf] at hcd; simp [contentIsDict] at hcd
      · rcases cv with tv | _
        · exact ⟨LoopEffect.sentResult sender (handleTelegramInstruction ident exec (tv.getD [])) :: es,
            by simp [processMailMessages, hs, hty, htask, hcf, hes, Except.map]⟩
        · rw [hcf] at hcd; simp [contentIsDict] at hcd
    · have hfalse : (ty == strOf "task" || ty == strOf "instruction") = false :=
        Bool.not_eq_true _ ▸ by simpa using htask
      exact ⟨es, by simp [processMailMessages, hs, hty, hfalse, hes]⟩

/-- Telegram items carrying a `text` key never make the loop body raise. -/
theorem processTele_textPresent_ok (ident : Str) (exec : Str → Str) :
    ∀ tmsgs : List TeleJson, (∀ tm ∈ tmsgs, tm.textField.isSome = true) →
      ∃ es, processTeleMessages ident exec tmsgs = Except.ok es := by
  intro tmsgs
  induction tmsgs with
  | nil => intro _; exact ⟨[], rfl⟩
  | cons tm rest ih =>
    intro h
    obtain ⟨t, ht⟩ := Option.isSome_iff_exists.mp (h tm (List.mem_cons_self _ _))
    obtain ⟨es, hes⟩ := ih (fun tm' hm' => h tm' (List.mem_cons_of_mem _ hm'))
    exact ⟨LoopEffect.notifiedTelegram
        (strOf "Result for " ++ (t ++ (strOf ":" ++ handleTelegramInstruction ident exec t))) :: es,
      by simp [processTeleMessages, ht, hes, Except.map]⟩

/-- **C5 counterexample**: a mailbox message whose JSON lacks the `from` key
makes the loop body raise an uncaught `KeyError` — the loop exits on a
handler error, not only on `KeyboardInterrupt`. -/
theorem c5_counterexample :
    loopIteration (strOf "wizardpanda") (fun s => s)
      [⟨none, some (strOf "task"), some (ContentVal.dict none)⟩] [] =
      Except.error PyExc.keyError := by rfl

/-- **C5 (amended)**: the loop body completes without raising on every
iteration whose mailbox messages are well-formed (have `from` and `type`
keys, with object content for `task`/`instruction`) and whose telegram items
carry a `text` key; only malformed messages (or `KeyboardInterrupt`) can end
the loop. -/
theorem c5_amended_loop_survives (ident : Str) (exec : Str → Str)
    (msgs : List MailJson) (tmsgs : List TeleJson)
    (h1 : ∀ m ∈ msgs, m.wellFormed) (h2 : ∀ tm ∈ tmsgs, tm.textField.isSome = true) :
    ∃ es, loopIteration ident exec msgs tmsgs = Except.ok es := by
  obtain ⟨es1, hes1⟩ := processMail_wellFormed_ok ident exec msgs h1
  obtain ⟨es2, hes2⟩ := processTele_textPresent_ok ident exec tmsgs h2
  exact ⟨es1 ++ es2, by simp [loopIteration, hes1, hes2]⟩

theorem c5_amended_loop_survives_witness :
    ∃ es, loopIteration (strOf "wizardpanda") (fun s => s)
      [⟨some (strOf "quasar"), some (strOf "task"),
        some (ContentVal.dict (some (strOf "hi")))⟩]
      [⟨some (strOf "status")⟩] = Except.ok es :=
  c5_amended_loop_survives (strOf "wizardpanda") (fun s => s) _ _ (by decide) (by decide)

/-- **C10**: the `status` command is read-only only when this host's presence
file exists; when it is missing, `status` performs a full heartbeat update —
it writes a fresh record with status `"active"` and task `"monitoring"` and
triggers a replication attempt. -/
theorem c10_status_heartbeats_when_missing (hostname : Str) (now : ℤ) (files : List PresFile) :
    (files.any (fun f => f.stem == hostname) = true →
      showStatus hostname now files = (files, [])) ∧
    (files.any (fun f => f.stem == hostname) = false →
      showStatus hostname now files =
        (files ++ [⟨hostname, some ⟨some now, strOf "active", strOf "monitoring"⟩⟩],
         [CommsEffect.wrotePresence hostname ⟨some now, strOf "active", strOf "monitoring"⟩,
          CommsEffect.syncTriggered])) := by
  constructor
  · intro h
    simp [showStatus, h]
  · intro h
    simp [showStatus, h, agentPresenceUpdate, writePresFile]

theorem c10_status_heartbeats_when_missing_witness :
    showStatus (strOf "quasar") 100 [] =
      ([⟨strOf "quasar", some ⟨some 100, strOf "active", strOf "monitoring"⟩⟩],
       [CommsEffect.wrotePresence (strOf "quasar") ⟨some 100, strOf "active", strOf "monitoring"⟩,
        CommsEffect.syncTriggered]) ∧
    showStatus (strOf "quasar") 100 [⟨strOf "quasar", none⟩] = ([⟨strOf "quasar", none⟩], []) :=
  ⟨(c10_status_heartbeats_when_missing (strOf "quasar") 100 []).2 (by decide),
   (c10_status_heartbeats_when_missing (strOf "quasar") 100 [⟨strOf "quasar", none⟩]).1 (by decide)⟩

/-- The fallback pass treats the primary as active exactly when some visible
quasar presence record is younger than 120 seconds. -/
theorem quasarActive_eq_false_iff (hostname : Str) (files : List PresFile) (now : ℤ) :
    quasarActive hostname files now = false ↔
      ∀ p ∈ getRemoteStatus hostname files,
        pyLower p.1 = strOf "quasar" → now - p.2.timestamp.getD 0 ≥ 120 := by
  unfold quasarActive
  rw [List.any_eq_false]
  constructor
  · intro hall p hp hq
    have := hall p hp
    simp only [hq, beq_self_eq_true, Bool.true_and, Bool.not_eq_true,
      decide_eq_false_iff_not, not_lt] at this
    omega
  · intro hall p hp
    by_cases hq : pyLower p.1 = strOf "quasar"
    · have := hall p hp hq
      simp only [hq, beq_self_eq_true, Bool.true_and, Bool.not_eq_true,
        decide_eq_false_iff_not, not_lt]
      omega
    · simp [hq]

/-- **C1 counterexample**: with the primary's presence record aged exactly
120 seconds (present, and not stale by *more* than 120 seconds), the fallback
host claims an item of age 61 seconds — the claim's condition (c) fails while
the item is claimed. -/
theorem c1_counterexample :
    fallbackClaims (strOf "wizardpanda") [⟨strOf "quasar", some ⟨some 0, [], []⟩⟩] 120 59 = true ∧
    pyLower (strOf "wizardpanda") ≠ strOf "quasar" ∧
    (∃ p ∈ getRemoteStatus (strOf "wizardpanda") [⟨strOf "quasar", some ⟨some 0, [], []⟩⟩],
      pyLower p.1 = strOf "quasar" ∧ ¬(120 - p.2.timestamp.getD 0 > 120)) := by decide

/-- **C1 (amended)**: a fallback host (one not named quasar) claims a shared
slot item iff the item's age exceeds 60 seconds and every visible presence
record of the primary is stale by at least 120 seconds (equivalently: the
primary's record is absent or was last written 120 or more seconds ago); in
particular, while any visible primary record is younger than 60 seconds the
fallback claims nothing, regardless of item age. -/
theorem c1_amended_fallback_conditions (hostname : Str) (files : List PresFile) (now mtime : ℤ)
    (hF : pyLower hostname ≠ strOf "quasar") :
    (fallbackClaims hostname files now mtime = true ↔
      (now - mtime > 60 ∧
        ∀ p ∈ getRemoteStatus hostname files,
          pyLower p.1 = strOf "quasar" → now - p.2.timestamp.getD 0 ≥ 120)) ∧
    ((∃ p ∈ getRemoteStatus hostname files,
        pyLower p.1 = strOf "quasar" ∧ now - p.2.timestamp.getD 0 < 60) →
      fallbackClaims hostname files now mtime = false) := by
  have hFb : (pyLower hostname == strOf "quasar") = false := by
    simpa using hF
  have hcl : fallbackClaims hostname files now mtime =
      (decide (now - mtime > 60) && !quasarActive hostname files now) := by
    simp [fallbackClaims, fallbackIsPrimary, hFb]
  constructor
  · rw [hcl]
    simp only [Bool.and_eq_true, decide_eq_true_eq, Bool.not_eq_true']
    rw [quasarActive_eq_false_iff]
  · rintro ⟨p, hp, hq, hfresh⟩
    have hact : quasarActive hostname files now = true := by
      unfold quasarActive
      rw [List.any_eq_true]
      refine ⟨p, hp, ?_⟩
      simp only [hq, beq_self_eq_true, Bool.true_and, decide_eq_true_eq]
      omega
    rw [hcl, hact]
    simp

theorem c1_amended_fallback_conditions_witness :
    fallbackClaims (strOf "wizardpanda") [⟨strOf "quasar", some ⟨some 0, [], []⟩⟩] 121 59 = true ∧
    fallbackClaims (strOf "wizardpanda") [⟨strOf "quasar", some ⟨some 100, [], []⟩⟩]
      121 0 = false :=
  ⟨((c1_amended_fallback_conditions (strOf "wizardpanda")
        [⟨strOf "quasar", some ⟨some 0, [], []⟩⟩] 121 59 (by decide)).1).mpr (by decide),
   (c1_amended_fallback_conditions (strOf "wizardpanda")
        [⟨strOf "quasar", some ⟨some 100, [], []⟩⟩] 121 0 (by decide)).2 (by decide)⟩

/-- The inbox files written by the update loop are exactly the routed texts
of the authorized updates, in order. -/
theorem pollTelegram_writes (hostname : Str) (cfg : TgConfig) :
    ∀ (us : List TgUpdate) (acc : List (Str × InboxMsg) × ℤ),
      (us.foldl (pollTelegramStep hostname cfg) acc).1 =
        acc.1 ++ (us.filter (tgAuthorized cfg)).map
          (fun u => handleInstruction hostname u.procTime u.text) := by
  intro us
  induction us with
  | nil => intro acc; simp
  | cons u us ih =>
    intro acc
    rw [List.foldl_cons, ih]
    cases ha : tgAuthorized cfg u <;>
      simp [pollTelegramStep, ha, List.filter_cons]

/-- `getD` on the `getLast?` of a nonempty list ignores the default. -/
theorem getD_getLast?_cons (a : ℤ) (l : List ℤ) (d1 d2 : ℤ) :
    ((a :: l).getLast?).getD d1 = ((a :: l).getLast?).getD d2 := by
  induction l generalizing a with
  | nil => rfl
  | cons b l ih =>
    rw [List.getLast?_cons_cons]
    exact ih b

/-- The cursor after the update loop is the id of the last update (authorized
or not), or the stored cursor when there were none. -/
theorem pollTelegram_cursor (hostname : Str) (cfg : TgConfig) :
    ∀ (us : List TgUpdate) (acc : List (Str × InboxMsg) × ℤ),
      (us.foldl (pollTelegramStep hostname cfg) acc).2 =
        ((us.map TgUpdate.updateId).getLast?).getD acc.2 := by
  intro us
  induction us with
  | nil => intro acc; simp
  | cons u us ih =>
    intro acc
    rw [List.foldl_cons, ih]
    have hstep : (pollTelegramStep hostname cfg acc u).2 = u.updateId := by
      cases ha : tgAuthorized cfg u <;> simp [pollTelegramStep, ha]
    rw [hstep]
    cases us with
    | nil => simp
    | cons v vs =>
      simp only [List.map_cons]
      exact getD_getLast?_cons _ _ _ _

/-- **C9**: the inbound poll routes an update into the inbox only when its
sender id equals the configured chat id — the files written are exactly those
of the authorized updates — so two polls whose updates differ only in
messages from unauthorized senders write identical inbox contents; yet the
persisted cursor advances to the last update id, authorized or not. -/
theorem c9_sender_filter (hostname : Str) (cfg : TgConfig) :
    (∀ us : List TgUpdate, (pollTelegram hostname cfg us).1 =
      (us.filter (tgAuthorized cfg)).map
        (fun u => handleInstruction hostname u.procTime u.text)) ∧
    (∀ us1 us2 : List TgUpdate,
      us1.filter (tgAuthorized cfg) = us2.filter (tgAuthorized cfg) →
      (pollTelegram hostname cfg us1).1 = (pollTelegram hostname cfg us2).1) ∧
    (∀ us : List TgUpdate, (pollTelegram hostname cfg us).2 =
      ((us.map TgUpdate.updateId).getLast?).getD cfg.lastUpdateId) := by
  refine ⟨?_, ?_, ?_⟩
  · intro us
    rw [show pollTelegram hostname cfg us =
        us.foldl (pollTelegramStep hostname cfg) ([], cfg.lastUpdateId) from rfl]
    rw [pollTelegram_writes]
    simp
  · intro us1 us2 h
    rw [show pollTelegram hostname cfg us1 =
        us1.foldl (pollTelegramStep hostname cfg) ([], cfg.lastUpdateId) from rfl]
    rw [show pollTelegram hostname cfg us2 =
        us2.foldl (pollTelegramStep hostname cfg) ([], cfg.lastUpdateId) from rfl]
    rw [pollTelegram_writes, pollTelegram_writes, h]
  · intro us
    rw [show pollTelegram hostname cfg us =
        us.foldl (pollTelegramStep hostname cfg) ([], cfg.lastUpdateId) from rfl]
    rw [pollTelegram_cursor]

theorem c9_sender_filter_witness :
    (pollTelegram (strOf "quasar") ⟨99, 5⟩
        [⟨6, some 99, strOf "hello", 1000⟩, ⟨7, some 13, strOf "intruder", 1001⟩]).1 =
      (pollTelegram (strOf "quasar") ⟨99, 5⟩ [⟨6, some 99, strOf "hello", 1000⟩]).1 ∧
    (pollTelegram (strOf "quasar") ⟨99, 5⟩
        [⟨6, some 99, strOf "hello", 1000⟩, ⟨7, some 13, strOf "intruder", 1001⟩]).2 = 7 :=
  ⟨(c9_sender_filter (strOf "quasar") ⟨99, 5⟩).2.1
      [⟨6, some 99, strOf "hello", 1000⟩, ⟨7, some 13, strOf "intruder", 1001⟩]
      [⟨6, some 99, strOf "hello", 1000⟩] (by decide),
   (c9_sender_filter (strOf "quasar") ⟨99, 5⟩).2.2
      [⟨6, some 99, strOf "hello", 1000⟩, ⟨7, some 13, strOf "intruder", 1001⟩]⟩

/-- Unfolding `get_remote_status` one file at a time: the head contributes
its parsed record unless it is the caller's own or unparsable. -/
theorem getRemoteStatus_cons (hostname : Str) (f : PresFile) (files : List PresFile) :
    getRemoteStatus hostname (f :: files) =
      (if f.stem = hostname then []
       else match f.parsed with
         | some d => [(f.stem, d)]
         | none => []) ++ getRemoteStatus hostname files := by
  unfold getRemoteStatus
  by_cases h : f.stem = hostname
  · simp [h, List.filter_cons]
  · rcases hp : f.parsed with _ | d <;>
      simp [h, hp, List.filter_cons, List.filterMap_cons]

/-- Every key of `get_remote_status` is the stem of some presence file. -/
theorem getRemoteStatus_keys (hostname : Str) (files : List PresFile) :
    ∀ p ∈ getRemoteStatus hostname files, p.1 ∈ files.map PresFile.stem := by
  intro p hp
  unfold getRemoteStatus at hp
  simp only [List.mem_filterMap, List.mem_filter] at hp
  obtain ⟨f, ⟨hf, _⟩, hmap⟩ := hp
  rcases hparsed : f.parsed with _ | d <;> rw [hparsed] at hmap
  · simp at hmap
  · simp only [Option.map_some'] at hmap
    injection hmap with hmap
    rw [← hmap]
    exact List.mem_map_of_mem _ hf

/-- A dict lookup misses when no entry carries the key. -/
theorem dictLookup_eq_none (l : List (Str × PresRec)) (k : Str)
    (h : ∀ p ∈ l, p.1 ≠ k) : dictLookup l k = none := by
  induction l with
  | nil => rfl
  | cons p rest ih =>
    have hrest := ih (fun q hq => h q (List.mem_cons_of_mem _ hq))
    have hp := h p (List.mem_cons_self _ _)
    simp [dictLookup, hrest, hp]

/-- Exit-code characterisation of the `ping` branch, by induction over the
presence directory (one file per host, hence distinct stems). -/
theorem pingExit_spec (hostname target : Str) (now : ℤ) :
    ∀ files : List PresFile, (files.map PresFile.stem).Nodup →
      (pingExit hostname target files now = 0 ↔
        ∃ f ∈ files, f.stem = target ∧ f.stem ≠ hostname ∧
          ∃ d, f.parsed = some d ∧ ∃ ts, d.timestamp = some ts ∧ now - ts < 60) := by
  intro files
  induction files with
  | nil => intro _; simp [pingExit, getRemoteStatus, dictLookup]
  | cons f rest ih =>
    intro hnd
    rw [List.map_cons, List.nodup_cons] at hnd
    obtain ⟨hnotin, hndrest⟩ := hnd
    have hSpec := ih hndrest
    by_cases hst : f.stem = target
    · have hrestnone : dictLookup (getRemoteStatus hostname rest) target = none := by
        apply dictLookup_eq_none
        intro p hp hcontra
        exact hnotin (hst ▸ (hcontra ▸ getRemoteStatus_keys hostname rest p hp))
      have hnotrest : ∀ g ∈ rest, g.stem ≠ target := by
        intro g hg hcontra
        exact hnotin (hst ▸ (hcontra ▸ List.mem_map_of_mem PresFile.stem hg))
      by_cases hsh : f.stem = hostname
      · have hgrs : getRemoteStatus hostname (f :: rest) = getRemoteStatus hostname rest := by
          rw [getRemoteStatus_cons]
          simp [hsh]
        have hlook : dictLookup (getRemoteStatus hostname (f :: rest)) target = none := by
          rw [hgrs]
          exact hrestnone
        have hone : pingExit hostname target (f :: rest) now = 1 := by
          simp [pingExit, hlook]
        rw [hone]
        constructor
        · intro h
          exact absurd h (by norm_num)
        · rintro ⟨g, hg, hgt, hgh, -⟩
          rcases List.mem_cons.mp hg with rfl | hgrest
          · exact absurd hsh hgh
          · exact absurd hgt (hnotrest g hgrest)
      · rcases hparsed : f.parsed with _ | d
        · have hgrs : getRemoteStatus hostname (f :: rest) = getRemoteStatus hostname rest := by
            rw [getRemoteStatus_cons]
            simp [hsh, hparsed]
          have hlook : dictLookup (getRemoteStatus hostname (f :: rest)) target = none := by
            rw [hgrs]
            exact hrestnone
          have hone : pingExit hostname target (f :: rest) now = 1 := by
            simp [pingExit, hlook]
          rw [hone]
          constructor
          · intro h
            exact absurd h (by norm_num)
          · rintro ⟨g, hg, hgt, hgh, d', hd', -⟩
            rcases List.mem_cons.mp hg with rfl | hgrest
            · rw [hparsed] at hd'
              exact Option.noConfusion hd'
            · exact absurd hgt (hnotrest g hgrest)
        · have hgrs : getRemoteStatus hostname (f :: rest) =
              (f.stem, d) :: getRemoteStatus hostname rest := by
            rw [getRemoteStatus_cons]
            simp [hsh, hparsed]
          have hlook : dictLookup (getRemoteStatus hostname (f :: rest)) target = some d := by
            rw [hgrs]
            simp [dictLookup, hrestnone, hst]
          have hform : pingExit hostname target (f :: rest) now =
              (match d.timestamp with
               | some ts => if now - ts < 60 then 0 else 1
               | none => 1) := by
            simp [pingExit, hlook]
          rw [hform]
          constructor
          · intro h
            rcases hts : d.timestamp with _ | ts <;> rw [hts] at h
            · exact absurd h (by norm_num)
            · have h' : (if now - ts < 60 then (0:ℤ) else 1) = 0 := h
              by_cases hfresh : now - ts < 60
              · exact ⟨f, List.mem_cons_self _ _, hst, hsh, d, hparsed, ts, hts, hfresh⟩
              · rw [if_neg hfresh] at h'
                exact absurd h' (by norm_num)
          · rintro ⟨g, hg, hgt, hgh, d', hd', ts, hts, hfresh⟩
            rcases List.mem_cons.mp hg with rfl | hgrest
            · rw [hparsed] at hd'
              injection hd' with hd'
              subst hd'
              rw [hts]
              show (if now - ts < 60 then (0:ℤ) else 1) = 0
              rw [if_pos hfresh]
            · exact absurd hgt (hnotrest g hgrest)
    · have heq : dictLookup (getRemoteStatus hostname (f :: rest)) target =
          dictLookup (getRemoteStatus hostname rest) target := by
        rw [getRemoteStatus_cons]
        by_cases hsh : f.stem = hostname
        · simp [hsh]
        · rcases hparsed : f.parsed with _ | d
          · simp [hsh, hparsed]
          · simp only [hsh, if_false, hparsed, List.singleton_append, if_neg hsh]
            cases hl : dictLookup (getRemoteStatus hostname rest) target <;>
              simp [dictLookup, hl, hst]
      have hstep : pingExit hostname target (f :: rest) now =
          pingExit hostname target rest now := by
        simp [pingExit, heq]
      rw [hstep, hSpec]
      constructor
      · rintro ⟨g, hg, hrest⟩
        exact ⟨g, List.mem_cons_of_mem _ hg, hrest⟩
      · rintro ⟨g, hg, hgt, hrest⟩
        rcases List.mem_cons.mp hg with rfl | hgrest
        · exact absurd hgt hst
        · exact ⟨g, hgrest, hgt, hrest⟩

/-- **C8**: `ping <target>` performs no write and no replication trigger, and
exits 0 exactly when a presence record for the target — other than the
caller's own — is present, parses, and is younger than 60 seconds; in every
other case it exits 1. -/
theorem c8_ping_exit_code (hostname target : Str) (files : List PresFile) (now : ℤ)
    (hnd : (files.map PresFile.stem).Nodup) :
    (pingRun hostname target files now = (0, files, []) ∨
      pingRun hostname target files now = (1, files, [])) ∧
    ((pingRun hostname target files now).1 = 0 ↔
      ∃ f ∈ files, f.stem = target ∧ f.stem ≠ hostname ∧
        ∃ d, f.parsed = some d ∧ ∃ ts, d.timestamp = some ts ∧ now - ts < 60) := by
  have hexit : pingExit hostname target files now = 0 ∨
      pingExit hostname target files now = 1 := by
    unfold pingExit
    cases hdl : dictLookup (getRemoteStatus hostname files) target with
    | none => right; rfl
    | some d =>
      show (match d.timestamp with
            | some ts => if now - ts < 60 then (0:ℤ) else 1
            | none => 1) = (0:ℤ) ∨
           (match d.timestamp with
            | some ts => if now - ts < 60 then (0:ℤ) else 1
            | none => 1) = (1:ℤ)
      cases hts : d.timestamp with
      | none => right; rfl
      | some ts =>
        show (if now - ts < 60 then (0:ℤ) else 1) = 0 ∨
             (if now - ts < 60 then (0:ℤ) else 1) = 1
        by_cases h : now - ts < 60
        · left; rw [if_pos h]
        · right; rw [if_neg h]
  constructor
  · rcases hexit with h | h
    · left; simp [pingRun, h]
    · right; simp [pingRun, h]
  · exact pingExit_spec hostname target now files hnd

theorem c8_ping_exit_code_witness :
    (pingRun (strOf "quasar") (strOf "wizardpanda")
      [⟨strOf "wizardpanda", some ⟨some 100, [], []⟩⟩] 130).1 = 0 ∧
    (pingRun (strOf "quasar") (strOf "wizardpanda")
      [⟨strOf "wizardpanda", some ⟨some 100, [], []⟩⟩] 200).1 ≠ 0 :=
  ⟨((c8_ping_exit_code (strOf "quasar") (strOf "wizardpanda")
      [⟨strOf "wizardpanda", some ⟨some 100, [], []⟩⟩] 130 (by decide)).2).mpr
      ⟨⟨strOf "wizardpanda", some ⟨some 100, [], []⟩⟩, by decide, rfl, by decide,
        ⟨some 100, [], []⟩, rfl, 100, rfl, by decide⟩,
   fun h => by
    have := ((c8_ping_exit_code (strOf "quasar") (strOf "wizardpanda")
      [⟨strOf "wizardpanda", some ⟨some 100, [], []⟩⟩] 200 (by decide)).2).mp h
    obtain ⟨f, hf, -, -, d, hd, ts, hts, hfresh⟩ := this
    simp at hf
    subst hf
    simp at hd
    subst hd
    simp at hts
    omega⟩

/-! # Helper lemmas for the bridge routing proofs -/

/-- `str.replace` leaves a string without any occurrence of the pattern
unchanged. -/
theorem pyReplaceFuel_no_occurrence (pat rep : Str) :
    ∀ (fuel : Nat) (s : Str), strInfix pat s = false → pyReplaceFuel pat rep fuel s = s := by
  intro fuel
  induction fuel with
  | zero => intro s _; rfl
  | succ fuel ih =>
    intro s hs
    cases s with
    | nil => rfl
    | cons c rest =>
      simp only [strInfix, Bool.or_eq_false_iff] at hs
      obtain ⟨hpre, hrest⟩ := hs
      simp only [pyReplaceFuel, hpre, Bool.and_false]
      rw [if_neg (by simp), ih rest hrest]

/-- `str.replace(pat, rep)` on `pat ++ t` with no further occurrence of
`pat` in `t` yields `rep ++ t`. -/
theorem pyReplace_prefix (pat rep t : Str) (hp : pat ≠ [])
    (ht : strInfix pat t = false) : pyReplace pat rep (pat ++ t) = rep ++ t := by
  rcases pat with _ | ⟨p0, ps⟩
  · exact absurd rfl hp
  · have hcond : (!(p0 :: ps).isEmpty && strPrefix (p0 :: ps) (p0 :: (ps ++ t))) = true := by
      simp only [List.isEmpty_cons, Bool.not_false, Bool.true_and]
      simpa using strPrefix_append (p0 :: ps) t
    have hdrop : List.drop (p0 :: ps).length (p0 :: (ps ++ t)) = t := by
      rw [show (p0 : Char) :: (ps ++ t) = (p0 :: ps) ++ t from rfl]
      exact List.drop_left (p0 :: ps) t
    show pyReplaceFuel (p0 :: ps) rep ((p0 :: ps) ++ t).length ((p0 :: ps) ++ t) = rep ++ t
    rw [show ((p0 :: ps) ++ t) = p0 :: (ps ++ t) from rfl]
    rw [show (p0 :: (ps ++ t)).length = (ps ++ t).length + 1 from rfl]
    rw [show pyReplaceFuel (p0 :: ps) rep ((ps ++ t).length + 1) (p0 :: (ps ++ t)) =
        (if !(p0 :: ps).isEmpty && strPrefix (p0 :: ps) (p0 :: (ps ++ t)) then
          rep ++ pyReplaceFuel (p0 :: ps) rep (ps ++ t).length
            (List.drop (p0 :: ps).length (p0 :: (ps ++ t)))
        else p0 :: pyReplaceFuel (p0 :: ps) rep (ps ++ t).length (ps ++ t)) from rfl]
    rw [if_pos hcond, hdrop, pyReplaceFuel_no_occurrence (p0 :: ps) rep _ t ht]

/-- `split(sep, 1)` cuts at the first separator: if `s` is separator-free,
`s ++ sep :: t` splits into `(s, t)`. -/
theorem splitOnce_first (c : Char) :
    ∀ (s t : Str), strContains s c = false → splitOnce c (s ++ c :: t) = some (s, t) := by
  intro s
  induction s with
  | nil => intro t _; simp [splitOnce]
  | cons a s ih =>
    intro t hs
    simp only [strContains, List.any_cons, Bool.or_eq_false_iff] at hs
    obtain ⟨ha, hrest⟩ := hs
    have hstep : splitOnce c ((a :: s) ++ c :: t) =
        Option.map (fun p => (a :: p.1, p.2)) (splitOnce c (s ++ c :: t)) := by
      show (if (a == c) = true then some ([], s ++ c :: t)
        else Option.map (fun p => (a :: p.1, p.2)) (splitOnce c (s ++ c :: t))) =
        Option.map (fun p => (a :: p.1, p.2)) (splitOnce c (s ++ c :: t))
      rw [if_neg (by rw [ha]; simp)]
    rw [hstep, ih t hrest]
    rfl

/-- A prefix whose head character mismatches never matches. -/
theorem strPrefix_false_of_head_ne (a b : Char) (p s : Str) (h : (a == b) = false) :
    strPrefix (a :: p) (b :: s) = false := by
  simp [strPrefix, h]

/-- For underscore-free identities, the priority-pass glob prefix
`f"{U}_"` matches a file named `f"{T}_..."` only when `U = T`. -/
theorem strPrefix_underscore_unique (U T rest : Str) (hU : '_' ∉ U) (hT : '_' ∉ T)
    (h : strPrefix (U ++ ['_']) (T ++ '_' :: rest) = true) : U = T := by
  obtain ⟨w, hw⟩ := (strPrefix_iff _ _).mp h
  rw [List.append_assoc, List.singleton_append] at hw
  exact ((sepSplit_unique '_' T U rest w hT hU) hw).1.symm

/-- The fallback glob `"Antigravity_*.json"` never matches a file whose
target name is all-lowercase. -/
theorem strPrefix_antigravity_false (T : Str) (hT : pyLower T = T) (rest : Str) :
    strPrefix (strOf "Antigravity_") (T ++ '_' :: rest) = false := by
  cases T with
  | nil => rfl
  | cons c T' =>
    have hc : c.toLower = c := by
      have h2 : Char.toLower c :: pyLower T' = c :: T' := hT
      exact (List.cons_eq_cons.mp h2).1
    have hne : ('A' == c) = false := by
      rw [beq_eq_false_iff_ne]
      intro h
      rw [← h] at hc
      exact absurd hc (by decide)
    rw [show strOf "Antigravity_" = 'A' :: strOf "ntigravity_" from rfl, List.cons_append]
    exact strPrefix_false_of_head_ne _ _ _ _ hne

/-- **C6 counterexample**: for the inbound text `"to Quasar: hi"` the bridge
lowercases the target and writes `quasar_<id>.json`, not `Quasar_<id>.json`;
the agent whose identity is `Quasar` (case-sensitive glob) does not receive
the item in any pass of its inbox poll. -/
theorem c6_counterexample :
    (handleInstruction (strOf "quasar") 1000 (strOf "to Quasar: hi")).1 =
      strOf "quasar_1000000.json" ∧
    (handleInstruction (strOf "quasar") 1000 (strOf "to Quasar: hi")).1 ≠
      strOf "Quasar_1000000.json" ∧
    listenTelegramMessages (strOf "Quasar") (strOf "Quasar") [] 1000
      [⟨(handleInstruction (strOf "quasar") 1000 (strOf "to Quasar: hi")).1,
        some (handleInstruction (strOf "quasar") 1000 (strOf "to Quasar: hi")).2, 1000⟩] =
      ([], [⟨(handleInstruction (strOf "quasar") 1000 (strOf "to Quasar: hi")).1,
        some (handleInstruction (strOf "quasar") 1000 (strOf "to Quasar: hi")).2, 1000⟩]) := by
  decide

/-- **C6 (amended)**: for an inbound text `"to T: body"` whose target `T` is
already lowercase, whitespace-trimmed, and free of `':'`, `'_'` and the
substring `"to "`, and whose stripped body does not itself start with a
`"to antigravity"`/`"to assistant"` override, the bridge writes the file
`{T}_{id}.json` containing the stripped body; the agent whose identity is
exactly `T` receives it in its priority pass, and the inbox poll of any other
underscore-free identity returns nothing for it. -/
theorem c6_explicit_prefix_routing (hostname T body : Str) (now mt : ℤ)
    (files : List PresFile)
    (hTlower : pyLower T = T) (hTstrip : pyStrip T = T)
    (hTcolon : strContains T ':' = false) (hTund : '_' ∉ T)
    (hTto : strInfix (strOf "to ") T = false)
    (hb1 : strPrefix (strOf "to antigravity") (pyLower (pyStrip body)) = false)
    (hb2 : strPrefix (strOf "to assistant") (pyLower (pyStrip body)) = false) :
    handleInstruction hostname now (strOf "to " ++ T ++ strOf ":" ++ body) =
      (T ++ strOf "_" ++ intRepr (msgIdOf now) ++ strOf ".json", ⟨pyStrip body, now⟩) ∧
    (∀ host2 now2,
      listenTelegramMessages host2 T files now2
        [⟨T ++ strOf "_" ++ intRepr (msgIdOf now) ++ strOf ".json",
          some ⟨pyStrip body, now⟩, mt⟩] =
        ([⟨pyStrip body, now⟩], [])) ∧
    (∀ U host2 now2, '_' ∉ U → U ≠ T →
      listenTelegramMessages host2 U files now2
        [⟨T ++ strOf "_" ++ intRepr (msgIdOf now) ++ strOf ".json",
          some ⟨pyStrip body, now⟩, mt⟩] =
        ([], [⟨T ++ strOf "_" ++ intRepr (msgIdOf now) ++ strOf ".json",
          some ⟨pyStrip body, now⟩, mt⟩])) := by
  have hgen : ∀ p t : Str, strPrefix (pyLower p) (pyLower (p ++ t)) = true := by
    intro p t
    rw [show pyLower (p ++ t) = pyLower p ++ pyLower t from List.map_append _ _ _]
    exact strPrefix_append _ _
  have htext : strOf "to " ++ T ++ strOf ":" ++ body =
      strOf "to " ++ ((T ++ strOf ":") ++ body) := by
    simp [List.append_assoc]
  have hpre : strPrefix (strOf "to ")
      (pyLower (strOf "to " ++ T ++ strOf ":" ++ body)) = true := by
    rw [htext]
    have h := hgen (strOf "to ") ((T ++ strOf ":") ++ body)
    rw [show pyLower (strOf "to ") = strOf "to " from by decide] at h
    exact h
  have htext2 : strOf "to " ++ T ++ strOf ":" ++ body =
      (strOf "to " ++ T) ++ ':' :: body := by
    rw [show strOf ":" = [':'] from rfl]
    simp [List.append_assoc]
  have hnocolon : strContains (strOf "to " ++ T) ':' = false := by
    simp only [strContains, List.any_append, Bool.or_eq_false_iff]
    exact ⟨by decide, hTcolon⟩
  have hsplit : splitOnce ':' (strOf "to " ++ T ++ strOf ":" ++ body) =
      some (strOf "to " ++ T, body) := by
    rw [htext2]
    exact splitOnce_first ':' (strOf "to " ++ T) body hnocolon
  have hreplace : pyReplace (strOf "to ") [] (strOf "to " ++ T) = T := by
    have h := pyReplace_prefix (strOf "to ") [] T (by decide) hTto
    simpa using h
  simp only [List.append_assoc] at hpre hsplit
  have hmain : handleInstruction hostname now (strOf "to " ++ T ++ strOf ":" ++ body) =
      (T ++ strOf "_" ++ intRepr (msgIdOf now) ++ strOf ".json", ⟨pyStrip body, now⟩) := by
    simp [handleInstruction, hpre, hsplit, hreplace, hTstrip, hTlower, hb1, hb2,
      List.append_assoc]
  refine ⟨hmain, ?_, ?_⟩
  · intro host2 now2
    have hshape : T ++ strOf "_" ++ intRepr (msgIdOf now) ++ strOf ".json" =
        (T ++ strOf "_") ++ (intRepr (msgIdOf now) ++ strOf ".json") := by
      simp [List.append_assoc]
    have hglob1 : globPS (T ++ strOf "_") (strOf ".json")
        (T ++ strOf "_" ++ intRepr (msgIdOf now) ++ strOf ".json") = true := by
      rw [hshape]
      exact globPS_sandwich _ _ _
    simp only [List.append_assoc] at hglob1
    cases hb : (pyLower T == strOf "antigravity") <;>
      simp [listenTelegramMessages, hb, telegramPrio1, telegramPrio2, hglob1]
  · intro U host2 now2 hU hUT
    have hshape2 : T ++ strOf "_" ++ intRepr (msgIdOf now) ++ strOf ".json" =
        T ++ '_' :: (intRepr (msgIdOf now) ++ strOf ".json") := by
      rw [show strOf "_" = ['_'] from rfl]
      simp [List.append_assoc]
    have hpreU : strPrefix (U ++ strOf "_")
        (T ++ strOf "_" ++ intRepr (msgIdOf now) ++ strOf ".json") = false := by
      cases hsp : strPrefix (U ++ strOf "_")
          (T ++ strOf "_" ++ intRepr (msgIdOf now) ++ strOf ".json")
      · rfl
      · exfalso
        rw [hshape2] at hsp
        exact hUT (strPrefix_underscore_unique U T _ hU hTund hsp)
    simp only [List.append_assoc] at hpreU
    have hglobU : globPS (U ++ strOf "_") (strOf ".json")
        (T ++ strOf "_" ++ intRepr (msgIdOf now) ++ strOf ".json") = false := by
      simp [globPS, hpreU]
    have hpreA : strPrefix (strOf "Antigravity_")
        (T ++ strOf "_" ++ intRepr (msgIdOf now) ++ strOf ".json") = false := by
      rw [hshape2]
      exact strPrefix_antigravity_false T hTlower _
    simp only [List.append_assoc] at hpreA
    have hglobA : globPS (strOf "Antigravity_") (strOf ".json")
        (T ++ strOf "_" ++ intRepr (msgIdOf now) ++ strOf ".json") = false := by
      simp [globPS, hpreA]
    simp only [List.append_assoc] at hglobU hglobA
    cases hb : (pyLower U == strOf "antigravity") <;>
      simp [listenTelegramMessages, hb, telegramPrio1, telegramPrio2, hglobU, hglobA]

theorem c6_explicit_prefix_routing_witness :
    handleInstruction (strOf "quasar") 1000
        (strOf "to " ++ strOf "wizardpanda" ++ strOf ":" ++ strOf "hello") =
      (strOf "wizardpanda" ++ strOf "_" ++ intRepr (msgIdOf 1000) ++ strOf ".json",
       ⟨pyStrip (strOf "hello"), 1000⟩) ∧
    listenTelegramMessages (strOf "quasar") (strOf "wizardpanda") [] 500
      [⟨strOf "wizardpanda" ++ strOf "_" ++ intRepr (msgIdOf 1000) ++ strOf ".json",
        some ⟨pyStrip (strOf "hello"), 1000⟩, 7⟩] =
      ([⟨pyStrip (strOf "hello"), 1000⟩], []) ∧
    listenTelegramMessages (strOf "quasar") (strOf "quasar") [] 500
      [⟨strOf "wizardpanda" ++ strOf "_" ++ intRepr (msgIdOf 1000) ++ strOf ".json",
        some ⟨pyStrip (strOf "hello"), 1000⟩, 7⟩] =
      ([], [⟨strOf "wizardpanda" ++ strOf "_" ++ intRepr (msgIdOf 1000) ++ strOf ".json",
        some ⟨pyStrip (strOf "hello"), 1000⟩, 7⟩]) :=
  ⟨(c6_explicit_prefix_routing (strOf "quasar") (strOf "wizardpanda") (strOf "hello")
      1000 7 [] (by decide) (by decide) (by decide) (by decide) (by decide)
      (by decide) (by decide)).1,
   (c6_explicit_prefix_routing (strOf "quasar") (strOf "wizardpanda") (strOf "hello")
      1000 7 [] (by decide) (by decide) (by decide) (by decide) (by decide)
      (by decide) (by decide)).2.1 (strOf "quasar") 500,
   (c6_explicit_prefix_routing (strOf "quasar") (strOf "wizardpanda") (strOf "hello")
      1000 7 [] (by decide) (by decide) (by decide) (by decide) (by decide)
      (by decide) (by decide)).2.2 (strOf "quasar") (strOf "quasar") 500
      (by decide) (by decide)⟩
